import Mathlib

/-!
# Verification of `preprocess_data` (src/model/Time Series/Data_Preparation.py)

A shallow embedding of the data-preparation transform of the water-salinity
repository.  A table is an ordered list of named columns; a cell is either a
value or null (pandas `NaN`).  Float arithmetic of the original program is
idealised as exact arithmetic: intermediate values are rationals, and the
standard scaler's square root is `Real.sqrt`, so the cells of the final table
live in `ℝ`.  All control-flow decisions of the transform (which columns are
dropped, which rows are kept, how columns are classified, whether an imputer
errors, whether the final assertion passes) depend only on rational and
string data, never on a scaled value, so every such decision remains
kernel-evaluable on concrete inputs.
-/

set_option autoImplicit false

namespace WaterSalinity

/-- A named column: `name` plus its ordered cells, `none` being a missing
value (pandas `NaN`).  The value type is a parameter: `ℚ` before scaling,
`ℝ` afterwards. -/
structure Col (α : Type) where
  name : String
  cells : List (Option α)
  deriving DecidableEq, Repr

/-- A table is an ordered list of columns (all of equal length in any table
actually built by the program). -/
abbrev Table := List (Col ℚ)

/-- The table after scaling, whose cells are real numbers. -/
abbrev TableR := List (Col ℝ)

/-- Number of missing cells of a column (`data[c].isna().sum()`). -/
def noneCount {α : Type} (c : Col α) : ℕ :=
  c.cells.countP Option.isNone

/-- The non-null values of a list of cells. -/
def nonNulls {α : Type} (cells : List (Option α)) : List α :=
  cells.filterMap id

/-- Column names of a table, in schema order. -/
def colNames {α : Type} (t : List (Col α)) : List String :=
  t.map Col.name

/-- Row count of a table (`data.shape[0]`): the length of its first column. -/
def nRows (t : Table) : ℕ :=
  match t with
  | [] => 0
  | c :: _ => c.cells.length

/-- Round half to even to the nearest integer (the rounding used by
`numpy.round`, hence by `round(series, 2)` in the source). -/
def rhe (q : ℚ) : ℤ :=
  let f := ⌊q⌋
  let r := q - f
  if r < 1/2 then f
  else if 1/2 < r then f + 1
  else if Even f then f else f + 1

/-- Round a rational to two decimal places, half to even
(`round(..., 2)` at line 110 of the source). -/
def round2 (q : ℚ) : ℚ :=
  (rhe (q * 100) : ℚ) / 100

/-- The per-column missing percentage the pruner actually compares against
`drop_threshold`: `round(data.isna().sum() / data.shape[0] * 100, 2)`
(line 110).  Note the rounding to two decimals. -/
def percentMissing (t : Table) (c : Col ℚ) : ℚ :=
  round2 ((noneCount c : ℚ) / (nRows t : ℚ) * 100)

/-- Names of the columns whose (rounded) missing percentage strictly exceeds
the threshold: `missing[missing["Percent of Missing Values"] > drop_threshold].index`
(line 119). -/
def columnsToDrop (t : Table) (thr : ℚ) : List String :=
  colNames (t.filter (fun c => thr < percentMissing t c))

/-- `data.drop(columns_to_drop, axis=1)` (line 122): remove every column whose
label occurs in the list. -/
def dropColumns (t : Table) (names : List String) : Table :=
  t.filter (fun c => c.name ∉ names)

/-- Errors the transform can raise, named after the Python exception and the
site that raises it. -/
inductive PrepError where
  /-- `KeyError`: `dropna(subset=[col])` with `col` absent (line 125). -/
  | keyError (col : String)
  /-- `ValueError` from `SimpleImputer` rejecting an unknown strategy string
  at fit time. -/
  | strategyError (s : String)
  /-- `ValueError` surfaced by fitting: a column with no observed values is
  dropped by `SimpleImputer`, making `pd.DataFrame(..., columns=...)`
  (lines 171-172) fail on the shape mismatch (also covers fitting on zero
  rows). -/
  | fitError
  /-- `NameError`: `scaler` is referenced at line 164 but never assigned when
  `scaling` is neither "standard" nor "normal". -/
  | nameError
  /-- `AssertionError` from the final check (line 182). -/
  | assertionError
  deriving DecidableEq, Repr

/-- Keep only the rows on which the given mask column is non-null
(the row selection performed by `dropna(subset=[...])`). -/
def filterByMask {α : Type} (mask : List (Option ℚ)) (cells : List (Option α)) :
    List (Option α) :=
  (cells.zip mask).filterMap (fun p => if p.2.isSome then some p.1 else none)

/-- `data.dropna(subset=["Salinity"], inplace=True)` (line 125): drop every
row whose `Salinity` cell is null; raises `KeyError` when no column is named
`Salinity`. -/
def dropnaSalinity (t : Table) : Except PrepError Table :=
  match t.find? (fun c => c.name = "Salinity") with
  | none => .error (.keyError "Salinity")
  | some s => .ok (t.map (fun c => ⟨c.name, filterByMask s.cells c.cells⟩))

/-- Number of distinct non-null values of a column (pandas `nunique`,
line 136). -/
def nunique (c : Col ℚ) : ℕ :=
  (nonNulls c.cells).dedup.length

/-- The `uniques` dictionary of lines 130-136: each column name paired with
its distinct non-null value count, in schema order. -/
def uniques (nd : Table) : List (String × ℕ) :=
  nd.map (fun c => (c.name, nunique c))

/-- `cat_attributes = [column for column in uniques if uniques[column] <= 6]`
(line 141). -/
def cat_attributes (nd : Table) : List String :=
  ((uniques nd).filter (fun u => u.2 ≤ 6)).map Prod.fst

/-- `num_attributes = [column for column in uniques if uniques[column] > 6]`
(line 142). -/
def num_attributes (nd : Table) : List String :=
  ((uniques nd).filter (fun u => 6 < u.2)).map Prod.fst

/-- Column selection by a list of labels (`new_data[names]`). -/
def selectCols (t : Table) (names : List String) : Table :=
  names.filterMap (fun n => t.find? (fun c => c.name = n))

/-! ## Imputation (`SimpleImputer`) -/

/-- Replace every missing cell by `v`, keeping observed values
(the action of a fitted `SimpleImputer` on one column). -/
def fillWith (v : ℚ) (cells : List (Option ℚ)) : List (Option ℚ) :=
  cells.map (fun c => some (c.getD v))

/-- Mean of a list of rationals (`0` on the empty list, which the imputer
never uses: an all-null column errors instead). -/
def meanOf (xs : List ℚ) : ℚ :=
  xs.sum / (xs.length : ℚ)

/-- Insert into a `≤`-sorted list. -/
def insertLe (x : ℚ) : List ℚ → List ℚ
  | [] => [x]
  | y :: ys => if x ≤ y then x :: y :: ys else y :: insertLe x ys

/-- Insertion sort, ascending. -/
def sortQ : List ℚ → List ℚ
  | [] => []
  | x :: xs => insertLe x (sortQ xs)

/-- Median as computed by `numpy.median` over the observed values: middle of
the sorted list, or the average of the two middle elements. -/
def medianOf (xs : List ℚ) : Option ℚ :=
  let s := sortQ xs
  let n := s.length
  if n = 0 then none
  else if n % 2 = 1 then some (s.getD (n / 2) 0)
  else some ((s.getD (n / 2 - 1) 0 + s.getD (n / 2) 0) / 2)

/-- Most frequent value as `SimpleImputer(strategy="most_frequent")`
computes it: among the values of maximal multiplicity, the smallest. -/
def modeOf (xs : List ℚ) : Option ℚ :=
  match sortQ xs.dedup with
  | [] => none
  | v :: vs => some (vs.foldl (fun b w => if xs.count b < xs.count w then w else b) v)

/-- The per-column statistic of a `SimpleImputer(strategy=s)`: `none` when
the column has no observed values (sklearn then drops the column, which the
transform surfaces as `fitError`).  An unknown strategy string has no
statistic; it is rejected separately. -/
def imputeStat (s : String) (fill_value : ℚ) (xs : List ℚ) : Option ℚ :=
  if s = "mean" then if xs.isEmpty then none else some (meanOf xs)
  else if s = "median" then medianOf xs
  else if s = "most_frequent" then modeOf xs
  else if s = "constant" then some fill_value
  else none

/-- Whether `strategy` is accepted by `SimpleImputer` at fit time. -/
def validStrategy (s : String) : Bool :=
  s = "mean" || s = "median" || s = "most_frequent" || s = "constant"

/-- Impute one column with the given strategy: reject an unknown strategy
(`ValueError` at fit time), error on a column with no observed values under a
statistical strategy, otherwise fill every null with the statistic.
`strategy = "constant"` always succeeds and fills with `fill_value`. -/
def imputeCol (strategy : String) (fill_value : ℚ) (c : Col ℚ) :
    Except PrepError (Col ℚ) :=
  if validStrategy strategy then
    match imputeStat strategy fill_value (nonNulls c.cells) with
    | none => .error .fitError
    | some v => .ok ⟨c.name, fillWith v c.cells⟩
  else .error (.strategyError strategy)

/-- The numerical imputer of lines 149-152: `strategy=num_strategy`, with
`fill_value` supplied only in the "constant" branch (it is ignored by the
other strategies anyway). -/
def imputeNumCol (num_strategy : String) (fill_value : ℚ) (c : Col ℚ) :
    Except PrepError (Col ℚ) :=
  imputeCol num_strategy fill_value c

/-- The categorical imputer of line 155: `SimpleImputer(strategy=cat_strategy)`
with no `fill_value` argument, whose sklearn default for numeric data is 0. -/
def imputeCatCol (cat_strategy : String) (c : Col ℚ) :
    Except PrepError (Col ℚ) :=
  imputeCol cat_strategy 0 c

/-! ## Scaling (`StandardScaler` / `MinMaxScaler`) -/

/-- Population variance of a list of rationals. -/
def varOf (xs : List ℚ) : ℚ :=
  (xs.map (fun x => (x - meanOf xs) ^ 2)).sum / (xs.length : ℚ)

/-- `StandardScaler` on one column: subtract the column mean and divide by
the column standard deviation, a zero standard deviation being replaced by 1
(sklearn `_handle_zeros_in_scale`).  The square root makes the result real. -/
noncomputable def stdScale (cells : List (Option ℚ)) : List (Option ℝ) :=
  let xs := nonNulls cells
  let m := meanOf xs
  let v := varOf xs
  let s : ℝ := if v = 0 then 1 else Real.sqrt (v : ℝ)
  cells.map (Option.map (fun (x : ℚ) => ((x : ℝ) - (m : ℝ)) / s))

/-- Minimum of a list of rationals, 0 on the empty list. -/
def minOf (xs : List ℚ) : ℚ :=
  match xs with
  | [] => 0
  | x :: rest => rest.foldl min x

/-- Maximum of a list of rationals, 0 on the empty list. -/
def maxOf (xs : List ℚ) : ℚ :=
  match xs with
  | [] => 0
  | x :: rest => rest.foldl max x

/-- `MinMaxScaler` on one column: `(x - min) / (max - min)`, a zero range
being replaced by 1 (sklearn `_handle_zeros_in_scale`). -/
def minmaxScale (cells : List (Option ℚ)) : List (Option ℝ) :=
  let xs := nonNulls cells
  let lo := minOf xs
  let range := if maxOf xs - lo = 0 then 1 else maxOf xs - lo
  cells.map (Option.map (fun x => (((x - lo) / range : ℚ) : ℝ)))

/-- The scaler chosen at lines 158-161, applied to one column.  Reached only
when `scaling` is "standard" or "normal" (otherwise line 164 raises
`NameError` first). -/
noncomputable def scaleCol (scaling : String) (c : Col ℚ) : Col ℝ :=
  ⟨c.name, if scaling = "standard" then stdScale c.cells else minmaxScale c.cells⟩

/-- The numerical pipeline of line 164: impute, then scale the imputed
column, the scaler fitting its statistics on the imputed values. -/
noncomputable def pipelineNum (num_strategy : String) (fill_value : ℚ)
    (scaling : String) (c : Col ℚ) : Except PrepError (Col ℝ) :=
  (imputeNumCol num_strategy fill_value c).map (scaleCol scaling)

/-- Embed an unscaled column into the real-valued output table. -/
def castCol (c : Col ℚ) : Col ℝ :=
  ⟨c.name, c.cells.map (Option.map (fun (q : ℚ) => (q : ℝ)))⟩

/-- Embed an unscaled sub-table into the real-valued output table. -/
def castTable (t : Table) : TableR :=
  t.map castCol

/-! ## Reassembly and the final assertion -/

/-- The final check of line 182, `not all(prepared_df.isna().sum())`:
`all` over the per-column missing counts is true iff every count is nonzero,
so the assertion passes iff some column has a zero missing count. -/
def assertNoMissing (t : TableR) : Bool :=
  !(t.all (fun c => noneCount c ≠ 0))

/-- Parameters of `preprocess_data` with the source's default values
(lines 95-97). -/
structure Params where
  drop_threshold : ℚ := 70
  num_strategy : String := "mean"
  cat_strategy : String := "most_frequent"
  fill_value : ℚ := -999
  scaling : String := "standard"
  file_name : String := "prepared_data.csv"

/-! ## The transform -/

/-- The Column Pruner (lines 110-125): drop the over-threshold columns, then
the rows with a null `Salinity`. -/
def prunedData (bottle : Table) (thr : ℚ) : Except PrepError Table :=
  dropnaSalinity (dropColumns bottle (columnsToDrop bottle thr))

/-- The body of `preprocess_data` (lines 95-187), stage by stage:

1. `data = bottle_df.copy()` — all later (in-place) mutations act on this
   private copy, so the embedding threads only `data`.
2. Drop the columns whose rounded missing percentage strictly exceeds
   `drop_threshold` (lines 110-122).
3. Drop the rows whose `Salinity` cell is null (line 125) — `KeyError` when
   `Salinity` was itself dropped.
4. Split off the first four columns (line 128) and classify the rest by
   distinct-value count (lines 130-142); line 145 reorders the feature
   columns as numerical then categorical.
5. An unknown `scaling` string leaves `scaler` unassigned, so building the
   pipeline at line 164 raises `NameError` before any fitting.
6. `full_pipeline.fit_transform` (lines 167-172) imputes and scales the
   numerical columns, then imputes the categorical ones; the output columns
   are `num_attributes ++ cat_attributes`.
7. Reattach the first four columns (lines 175-179).
8. Assert the (weak) completeness check of line 182; the write to
   `file_name` (line 185) is commented out.  Return the prepared table. -/
noncomputable def preprocess_data (bottle_df : Table) (p : Params) :
    Except PrepError TableR :=
  match prunedData bottle_df p.drop_threshold with
  | .error e => .error e
  | .ok data =>
    let new_data := data.drop 4
    let num_attrs := num_attributes new_data
    let cat_attrs := cat_attributes new_data
    let new_data2 := selectCols new_data (num_attrs ++ cat_attrs)
    if p.scaling = "standard" ∨ p.scaling = "normal" then
      match (selectCols new_data2 num_attrs).mapM
          (pipelineNum p.num_strategy p.fill_value p.scaling) with
      | .error e => .error e
      | .ok numPart =>
        match (selectCols new_data2 cat_attrs).mapM
            (imputeCatCol p.cat_strategy) with
        | .error e => .error e
        | .ok catPart =>
          let prepared := castTable (data.take 4) ++ numPart ++ castTable catPart
          if assertNoMissing prepared then .ok prepared
          else .error .assertionError
    else .error .nameError

/-- The call as seen from the process: the global `bottle_df` before and
after, the list of files written, and the returned table.  Line 106 copies
the source table and every in-place mutation (lines 122, 125, 176, 177)
targets the copy, so the global state is returned unchanged; the only write
to `file_name` (line 185) is commented out, so no file is written. -/
noncomputable def runPreprocess (bottle_df : Table) (p : Params) :
    Table × List String × Except PrepError TableR :=
  (bottle_df, [], preprocess_data bottle_df p)

/-- Which errors the spec's taxonomy calls configuration errors: an invalid
enum value for a strategy or the scaling (there is no missing-`fill_value`
error, the Python parameter having a default). -/
def isConfigError : PrepError → Bool
  | .strategyError _ => true
  | .nameError => true
  | _ => false

/-! ## Helpers for stating claims on `Except` results -/

/-- Total number of missing cells of the result, 0 on an error. -/
def countNullsE (r : Except PrepError TableR) : ℕ :=
  match r with
  | .error _ => 0
  | .ok t => (t.map noneCount).sum

/-- Number of output columns consisting only of missing cells, 0 on an
error. -/
def allNullColsE (r : Except PrepError TableR) : ℕ :=
  match r with
  | .error _ => 0
  | .ok t => t.countP (fun c => c.cells.all Option.isNone)

/-- The error a result carries, if any. -/
def errorOf (r : Except PrepError TableR) : Option PrepError :=
  match r with
  | .error e => some e
  | .ok _ => none

/-! ## Basic lemmas about the pruner -/

theorem rhe_nonneg {q : ℚ} (h : 0 ≤ q) : 0 ≤ rhe q := by
  have hf : (0 : ℤ) ≤ ⌊q⌋ := Int.le_floor.mpr (by exact_mod_cast h)
  unfold rhe
  dsimp only
  split
  · exact hf
  · split
    · omega
    · split
      · exact hf
      · omega

theorem round2_nonneg {q : ℚ} (h : 0 ≤ q) : 0 ≤ round2 q := by
  unfold round2
  have : (0 : ℚ) ≤ (rhe (q * 100) : ℚ) := by
    exact_mod_cast rhe_nonneg (by positivity)
  positivity

theorem percentMissing_nonneg (t : Table) (c : Col ℚ) :
    0 ≤ percentMissing t c := by
  unfold percentMissing
  apply round2_nonneg
  positivity

theorem round2_zero : round2 0 = 0 := by
  have : rhe 0 = 0 := by with_unfolding_all decide
  simp [round2, this]

/-- A column with no missing cell has missing percentage 0. -/
theorem percentMissing_of_noneCount_zero (t : Table) (c : Col ℚ)
    (h : noneCount c = 0) : percentMissing t c = 0 := by
  unfold percentMissing
  rw [h]
  push_cast
  rw [zero_div, zero_mul, round2_zero]

theorem mem_columnsToDrop {t : Table} {thr : ℚ} {n : String} :
    n ∈ columnsToDrop t thr ↔
      ∃ c ∈ t, c.name = n ∧ thr < percentMissing t c := by
  simp only [columnsToDrop, colNames, List.mem_map, List.mem_filter,
    decide_eq_true_eq]
  constructor
  · rintro ⟨c, ⟨hc, hlt⟩, hn⟩
    exact ⟨c, hc, hn, hlt⟩
  · rintro ⟨c, hc, hn, hlt⟩
    exact ⟨c, ⟨hc, hlt⟩, hn⟩

/-- Injectivity of column names on a table with no duplicate names. -/
theorem eq_of_name_eq {t : Table} (hnd : (colNames t).Nodup)
    {c c' : Col ℚ} (hc : c ∈ t) (hc' : c' ∈ t) (h : c.name = c'.name) :
    c = c' :=
  List.inj_on_of_nodup_map hnd hc hc' h

/-- On a table with no duplicate column names, the pruner keeps exactly the
columns whose rounded missing percentage is at most the threshold. -/
theorem dropColumns_columnsToDrop {t : Table} {thr : ℚ}
    (hnd : (colNames t).Nodup) :
    dropColumns t (columnsToDrop t thr) =
      t.filter (fun c => percentMissing t c ≤ thr) := by
  unfold dropColumns
  apply List.filter_congr
  intro c hc
  simp only [decide_eq_true_eq, decide_eq_decide]
  rw [mem_columnsToDrop]
  constructor
  · intro hnot
    by_contra hgt
    exact hnot ⟨c, hc, rfl, lt_of_not_le hgt⟩
  · rintro hle ⟨c', hc', hn, hlt⟩
    have : c' = c := eq_of_name_eq hnd hc' hc hn
    subst this
    exact absurd hle (not_le.mpr hlt)

/-- A member of the pruned column set is a member of the table whose rounded
missing percentage is at most the threshold (no-duplicate names). -/
theorem mem_dropColumns {t : Table} {thr : ℚ}
    (hnd : (colNames t).Nodup) {c : Col ℚ}
    (hc : c ∈ dropColumns t (columnsToDrop t thr)) :
    c ∈ t ∧ percentMissing t c ≤ thr := by
  rw [dropColumns_columnsToDrop hnd] at hc
  have := List.mem_filter.mp hc
  simpa using this

/-- Any column surviving `dropColumns` satisfies the (un)dropped bound, even
with duplicate names. -/
theorem surviving_le_thr {t : Table} {thr : ℚ} {c : Col ℚ}
    (hc : c ∈ dropColumns t (columnsToDrop t thr)) :
    c ∈ t ∧ percentMissing t c ≤ thr := by
  unfold dropColumns at hc
  have h := List.mem_filter.mp hc
  refine ⟨h.1, ?_⟩
  by_contra hgt
  have hmem : c.name ∈ columnsToDrop t thr :=
    mem_columnsToDrop.mpr ⟨c, h.1, rfl, lt_of_not_le hgt⟩
  have := h.2
  simp only [decide_eq_true_eq] at this
  exact this hmem

/-- If the predicate holds on the first `n` elements, filtering splits as the
untouched prefix followed by the filtered remainder. -/
theorem filter_take_drop {α : Type} (p : α → Bool) :
    ∀ (n : ℕ) (t : List α), (∀ c ∈ t.take n, p c = true) →
      t.filter p = t.take n ++ (t.drop n).filter p := by
  intro n
  induction n with
  | zero => intro t _; simp
  | succ m ih =>
    intro t ht
    cases t with
    | nil => simp
    | cons a l =>
      have ha : p a = true := ht a (by simp)
      have hl : ∀ c ∈ l.take m, p c = true := by
        intro c hc
        exact ht c (by simp [hc])
      simp [List.filter_cons, ha, ih l hl]

/-- Filtering a list whose first `n` elements all satisfy the predicate
leaves the prefix unchanged. -/
theorem take_of_filter_initial {α : Type} (p : α → Bool) (n : ℕ) (t : List α)
    (h : ∀ c ∈ t.take n, p c = true) :
    (t.filter p).take n = t.take n := by
  rw [filter_take_drop p n t h]
  rcases le_or_lt n t.length with hle | hlt
  · have hl : (t.take n).length = n := by
      simp [List.length_take, Nat.min_eq_left hle]
    have hleft := List.take_left (t.take n) ((t.drop n).filter p)
    rw [hl] at hleft
    exact hleft
  · have hdrop : t.drop n = [] := List.drop_eq_nil_of_le (le_of_lt hlt)
    simp [hdrop, List.take_take]

/-- Filtering a list whose first `n` elements all satisfy the predicate acts
on the remainder only. -/
theorem drop_of_filter_initial {α : Type} (p : α → Bool) (n : ℕ) (t : List α)
    (h : ∀ c ∈ t.take n, p c = true) :
    (t.filter p).drop n = (t.drop n).filter p := by
  rw [filter_take_drop p n t h]
  rcases le_or_lt n t.length with hle | hlt
  · have hl : (t.take n).length = n := by
      simp [List.length_take, Nat.min_eq_left hle]
    have hleft := List.drop_left (t.take n) ((t.drop n).filter p)
    rw [hl] at hleft
    exact hleft
  · have hdrop : t.drop n = [] := List.drop_eq_nil_of_le (le_of_lt hlt)
    simp [hdrop, List.drop_eq_nil_of_le, List.length_take]

/-! ## Lemmas about missing cells through each stage -/

theorem noneCount_eq_zero {α : Type} {c : Col α} :
    noneCount c = 0 ↔ ∀ x ∈ c.cells, x.isSome = true := by
  unfold noneCount
  rw [List.countP_eq_zero]
  refine ⟨fun h x hx => ?_, fun h x hx => ?_⟩
  · have := h x hx
    cases x
    · simp at this
    · rfl
  · have := h x hx
    cases x
    · simp at this
    · simp

theorem filterByMask_isSome {α : Type} {mask : List (Option ℚ)}
    {cells : List (Option α)} (h : ∀ x ∈ cells, x.isSome = true) :
    ∀ x ∈ filterByMask mask cells, x.isSome = true := by
  intro x hx
  unfold filterByMask at hx
  rcases List.mem_filterMap.mp hx with ⟨⟨a, m⟩, hmem, hif⟩
  have ha : a ∈ cells := (List.of_mem_zip hmem).1
  by_cases hm : m.isSome = true
  · simp [hm] at hif
    subst hif
    exact h a ha
  · simp [hm] at hif

theorem noneCount_fillWith (n : String) (v : ℚ) (cells : List (Option ℚ)) :
    noneCount (⟨n, fillWith v cells⟩ : Col ℚ) = 0 := by
  unfold noneCount fillWith
  simp [List.countP_eq_zero]

/-- An imputed column (any strategy) has no missing cells. -/
theorem imputeCol_noneCount {s : String} {fv : ℚ} {c c' : Col ℚ}
    (h : imputeCol s fv c = .ok c') : noneCount c' = 0 := by
  unfold imputeCol at h
  by_cases hv : validStrategy s = true
  · rw [if_pos hv] at h
    cases hstat : imputeStat s fv (nonNulls c.cells) with
    | none => rw [hstat] at h; exact absurd h (by simp)
    | some v =>
      rw [hstat] at h
      have : c' = ⟨c.name, fillWith v c.cells⟩ := by
        cases h; rfl
      rw [this]
      exact noneCount_fillWith _ _ _
  · rw [if_neg hv] at h
    exact absurd h (by simp)

theorem countP_isNone_comp {α β : Type} (g : Option α → Option β)
    (hg : ∀ x, (g x).isNone = x.isNone) (l : List (Option α)) :
    l.countP (Option.isNone ∘ g) = l.countP Option.isNone := by
  induction l with
  | nil => rfl
  | cons x xs ih =>
    simp only [List.countP_cons, Function.comp_apply]
    rw [ih]
    have hiff : ((g x).isNone = true) ↔ (x.isNone = true) := by rw [hg]
    rw [if_congr hiff rfl rfl]

theorem isNone_optionMap {α β : Type} (g : α → β) (x : Option α) :
    (Option.map g x).isNone = x.isNone := by
  cases x <;> rfl

theorem noneCount_scaleCol (s : String) (c : Col ℚ) :
    noneCount (scaleCol s c) = noneCount c := by
  by_cases h : s = "standard" <;>
    simp [scaleCol, noneCount, stdScale, minmaxScale, h] <;>
    exact countP_isNone_comp _ (isNone_optionMap _) _

theorem noneCount_castCol (c : Col ℚ) : noneCount (castCol c) = noneCount c := by
  simp [castCol, noneCount]
  exact countP_isNone_comp _ (isNone_optionMap _) _

/-- Each element of a successful `mapM` output comes from a successful
application of the function to an element of the input. -/
theorem mapM_ok_mem {α β : Type} {f : α → Except PrepError β}
    {l : List α} {l' : List β} (h : l.mapM f = .ok l') :
    ∀ b ∈ l', ∃ a ∈ l, f a = .ok b := by
  induction l generalizing l' with
  | nil =>
    simp only [List.mapM_nil, pure, Except.pure] at h
    cases h
    simp
  | cons a as ih =>
    rw [List.mapM_cons] at h
    cases hfa : f a with
    | error e =>
      rw [hfa] at h
      have h' : (Except.error e : Except PrepError (List β)) = .ok l' := h
      cases h'
    | ok b0 =>
      rw [hfa] at h
      cases hrest : as.mapM f with
      | error e =>
        rw [hrest] at h
        have h' : (Except.error e : Except PrepError (List β)) = .ok l' := h
        cases h'
      | ok bs =>
        rw [hrest] at h
        have h' : (Except.ok (b0 :: bs) : Except PrepError (List β)) = .ok l' := h
        cases h'
        intro b hb
        rcases List.mem_cons.mp hb with hb | hb
        · exact ⟨a, by simp, by rw [hfa, hb]⟩
        · rcases ih hrest b hb with ⟨a', ha', hfa'⟩
          exact ⟨a', by simp [ha'], hfa'⟩

/-- `dropnaSalinity` succeeding yields the row-filtered table. -/
theorem dropnaSalinity_ok {t t' : Table} (h : dropnaSalinity t = .ok t') :
    ∃ s, t.find? (fun c => c.name = "Salinity") = some s ∧
      t' = t.map (fun c => ⟨c.name, filterByMask s.cells c.cells⟩) := by
  unfold dropnaSalinity at h
  cases hf : t.find? (fun c => c.name = "Salinity") with
  | none => rw [hf] at h; exact absurd h (by simp)
  | some s =>
    rw [hf] at h
    refine ⟨s, rfl, ?_⟩
    cases h
    rfl

/-- Column names survive the row drop. -/
theorem colNames_dropna {t t' : Table} (h : dropnaSalinity t = .ok t') :
    colNames t' = colNames t := by
  rcases dropnaSalinity_ok h with ⟨s, _, ht'⟩
  subst ht'
  simp [colNames]

/-! ## Structure of a successful run -/

/-- A successful run of `preprocess_data` decomposes into a successful prune,
a valid scaling name, successful imputations of both partitions, and passage
of the final assertion. -/
theorem preprocess_ok_elim {b : Table} {p : Params} {out : TableR}
    (h : preprocess_data b p = .ok out) :
    ∃ data', prunedData b p.drop_threshold = .ok data' ∧
      (p.scaling = "standard" ∨ p.scaling = "normal") ∧
      ∃ numPart catPart,
        (selectCols (selectCols (data'.drop 4)
            (num_attributes (data'.drop 4) ++ cat_attributes (data'.drop 4)))
            (num_attributes (data'.drop 4))).mapM
            (pipelineNum p.num_strategy p.fill_value p.scaling) = .ok numPart ∧
        (selectCols (selectCols (data'.drop 4)
            (num_attributes (data'.drop 4) ++ cat_attributes (data'.drop 4)))
            (cat_attributes (data'.drop 4))).mapM
            (imputeCatCol p.cat_strategy) = .ok catPart ∧
        out = castTable (data'.take 4) ++ numPart ++ castTable catPart ∧
        assertNoMissing out = true := by
  unfold preprocess_data at h
  cases hpd : prunedData b p.drop_threshold with
  | error e => rw [hpd] at h; cases h
  | ok data' =>
    rw [hpd] at h
    dsimp only at h
    by_cases hs : (p.scaling = "standard" ∨ p.scaling = "normal")
    · rw [if_pos hs] at h
      refine ⟨data', rfl, hs, ?_⟩
      cases hnum : (selectCols (selectCols (data'.drop 4)
          (num_attributes (data'.drop 4) ++ cat_attributes (data'.drop 4)))
          (num_attributes (data'.drop 4))).mapM
          (pipelineNum p.num_strategy p.fill_value p.scaling) with
      | error e => rw [hnum] at h; cases h
      | ok numPart =>
        rw [hnum] at h
        dsimp only at h
        cases hcat : (selectCols (selectCols (data'.drop 4)
            (num_attributes (data'.drop 4) ++ cat_attributes (data'.drop 4)))
            (cat_attributes (data'.drop 4))).mapM
            (imputeCatCol p.cat_strategy) with
        | error e => rw [hcat] at h; cases h
        | ok catPart =>
          rw [hcat] at h
          dsimp only at h
          by_cases ha : assertNoMissing
              (castTable (data'.take 4) ++ numPart ++ castTable catPart) = true
          · rw [if_pos ha] at h
            cases h
            exact ⟨numPart, catPart, rfl, rfl, rfl, ha⟩
          · rw [if_neg ha] at h
            cases h
    · rw [if_neg hs] at h
      cases h

/-- A successful prune forces a nonnegative threshold: the surviving
`Salinity` column has nonnegative rounded percentage bounded by the
threshold. -/
theorem prunedData_thr_nonneg {b : Table} {thr : ℚ} {data' : Table}
    (hok : prunedData b thr = .ok data') : 0 ≤ thr := by
  unfold prunedData at hok
  rcases dropnaSalinity_ok hok with ⟨s, hfind, _⟩
  have hmem : s ∈ dropColumns b (columnsToDrop b thr) :=
    List.mem_of_find?_eq_some hfind
  have hle := (surviving_le_thr hmem).2
  exact le_trans (percentMissing_nonneg b s) hle

/-- With distinct names, complete first-four columns are never pruned. -/
theorem firstFour_not_dropped {b : Table} {thr : ℚ}
    (hnd : (colNames b).Nodup) (h4 : ∀ c ∈ b.take 4, noneCount c = 0)
    (hthr : 0 ≤ thr) :
    ∀ c ∈ b.take 4, (decide (c.name ∉ columnsToDrop b thr)) = true := by
  intro c hc
  rw [decide_eq_true_eq]
  intro hmem
  rcases mem_columnsToDrop.mp hmem with ⟨c', hc', hn, hlt⟩
  have hcb : c ∈ b := List.take_subset 4 b hc
  have : c' = c := eq_of_name_eq hnd hc' hcb hn
  subst this
  rw [percentMissing_of_noneCount_zero b c' (h4 c' hc)] at hlt
  exact absurd hthr (not_le.mpr hlt)

/-- With distinct names and complete first-four columns, the pruner leaves
the first four columns exactly in place. -/
theorem dropColumns_take4 {b : Table} {thr : ℚ}
    (hnd : (colNames b).Nodup) (h4 : ∀ c ∈ b.take 4, noneCount c = 0)
    (hthr : 0 ≤ thr) :
    (dropColumns b (columnsToDrop b thr)).take 4 = b.take 4 := by
  unfold dropColumns
  exact take_of_filter_initial _ 4 b (firstFour_not_dropped hnd h4 hthr)

/-- With distinct names and complete first-four columns, the pruner acts on
the feature columns only. -/
theorem dropColumns_drop4 {b : Table} {thr : ℚ}
    (hnd : (colNames b).Nodup) (h4 : ∀ c ∈ b.take 4, noneCount c = 0)
    (hthr : 0 ≤ thr) :
    (dropColumns b (columnsToDrop b thr)).drop 4 =
      (b.drop 4).filter (fun c => c.name ∉ columnsToDrop b thr) := by
  unfold dropColumns
  exact drop_of_filter_initial _ 4 b (firstFour_not_dropped hnd h4 hthr)

/-- After a successful prune, the first four columns are still complete. -/
theorem pruned_take4_noneCount {b : Table} {thr : ℚ} {data' : Table}
    (hnd : (colNames b).Nodup) (h4 : ∀ c ∈ b.take 4, noneCount c = 0)
    (hok : prunedData b thr = .ok data') :
    ∀ c ∈ data'.take 4, noneCount c = 0 := by
  have hthr := prunedData_thr_nonneg hok
  unfold prunedData at hok
  rcases dropnaSalinity_ok hok with ⟨s, _, hdata'⟩
  subst hdata'
  intro c hc
  rw [← List.map_take] at hc
  rw [dropColumns_take4 hnd h4 hthr] at hc
  rcases List.mem_map.mp hc with ⟨c₀, hc₀, rfl⟩
  have h0 := h4 c₀ hc₀
  rw [noneCount_eq_zero] at h0 ⊢
  exact filterByMask_isSome h0

/-! ## Claim C1 -/

/-- C1: for every call to `preprocess_data` that returns normally, the
returned table contains zero null cells — every cell of every identifier,
numeric and categorical column of the output is non-null.  The hypotheses
are the spec's data model: the schema has pairwise distinct column names and
the four identifier columns are never null. -/
theorem c1_preprocess_output_has_no_nulls (b : Table) (p : Params)
    (hnd : (colNames b).Nodup) (h4 : ∀ c ∈ b.take 4, noneCount c = 0) :
    countNullsE (preprocess_data b p) = 0 := by
  cases hr : preprocess_data b p with
  | error e => simp [countNullsE]
  | ok out =>
    rcases preprocess_ok_elim hr with
      ⟨data', hpd, _, numPart, catPart, hnum, hcat, hout, _⟩
    simp only [countNullsE]
    apply List.sum_eq_zero
    intro x hx
    rcases List.mem_map.mp hx with ⟨c, hc, rfl⟩
    rw [hout] at hc
    rcases List.mem_append.mp hc with hc | hc
    · rcases List.mem_append.mp hc with hc | hc
      · rcases List.mem_map.mp hc with ⟨c₀, hc₀, rfl⟩
        rw [noneCount_castCol]
        exact pruned_take4_noneCount hnd h4 hpd c₀ hc₀
      · rcases mapM_ok_mem hnum c hc with ⟨a, _, hfa⟩
        unfold pipelineNum at hfa
        cases himp : imputeNumCol p.num_strategy p.fill_value a with
        | error e =>
          rw [himp] at hfa
          have h' : (Except.error e : Except PrepError (Col ℝ)) = .ok c := hfa
          cases h'
        | ok c' =>
          rw [himp] at hfa
          have h' : (Except.ok (scaleCol p.scaling c') :
              Except PrepError (Col ℝ)) = .ok c := hfa
          cases h'
          rw [noneCount_scaleCol]
          exact imputeCol_noneCount himp
    · rcases List.mem_map.mp hc with ⟨c₀, hc₀, rfl⟩
      rw [noneCount_castCol]
      rcases mapM_ok_mem hcat c₀ hc₀ with ⟨a, _, hfa⟩
      exact imputeCol_noneCount hfa

/-- A concrete source table satisfying the data model, for exercising C1. -/
def c1table : Table :=
  [⟨"Cast Count", [some 1, some 2]⟩,
   ⟨"Bottle Count", [some 1, some 1]⟩,
   ⟨"Station ID", [some 0, some 0]⟩,
   ⟨"Depth ID", [some 0, some 1]⟩,
   ⟨"Depth", [some 5, none]⟩,
   ⟨"Salinity", [some 33, some 34]⟩]

/-- C1 witness: on a concrete table with complete identifier columns, the
default call returns normally and its output has zero null cells. -/
theorem c1_witness :
    (colNames c1table).Nodup ∧ (∀ c ∈ c1table.take 4, noneCount c = 0) ∧
    (preprocess_data c1table {}).isOk = true ∧
    countNullsE (preprocess_data c1table {}) = 0 :=
  ⟨by with_unfolding_all decide, by with_unfolding_all decide,
   by with_unfolding_all decide,
   c1_preprocess_output_has_no_nulls c1table {}
     (by with_unfolding_all decide) (by with_unfolding_all decide)⟩

/-! ## Claim C2 -/

/-- A one-column table whose missing ratio is 1/32 = 3.125 %. -/
def c2table : Table :=
  [⟨"Test", List.replicate 31 (some 1) ++ [none]⟩]

/-- C2 counterexample: with `drop_threshold = 3.124`, the `Test` column's
unrounded missing percentage `missing_count / row_count * 100 = 3.125`
strictly exceeds the threshold, yet the pruner keeps the column, because it
compares the percentage rounded to two decimals (3.12).  So the pruner does
not drop exactly the columns whose percentage exceeds the threshold, and a
retained column can have missing percentage above it. -/
theorem c2_counterexample :
    (3124 / 1000 : ℚ) <
      (noneCount (⟨"Test", List.replicate 31 (some 1) ++ [none]⟩ : Col ℚ) : ℚ) /
        (nRows c2table : ℚ) * 100 ∧
    columnsToDrop c2table (3124 / 1000) = [] ∧
    dropColumns c2table (columnsToDrop c2table (3124 / 1000)) = c2table := by
  refine ⟨by with_unfolding_all decide, by with_unfolding_all decide,
    by with_unfolding_all decide⟩

/-- C2 (amended): the pruner compares the missing percentage rounded to two
decimals, `round(missing_count / row_count * 100, 2)`; with pairwise
distinct column names it drops exactly the columns whose rounded percentage
strictly exceeds `drop_threshold`, so every retained column has rounded
missing percentage at most `drop_threshold` (the unrounded percentage can
exceed it by less than 0.005). -/
theorem c2_pruner_drops_by_rounded_percent (t : Table) (thr : ℚ)
    (hnd : (colNames t).Nodup) :
    dropColumns t (columnsToDrop t thr) =
      t.filter (fun c => percentMissing t c ≤ thr) ∧
    ∀ c ∈ dropColumns t (columnsToDrop t thr), percentMissing t c ≤ thr :=
  ⟨dropColumns_columnsToDrop hnd, fun _ hc => (surviving_le_thr hc).2⟩

/-- C2 witness: the amended pruner description at a concrete table and
threshold. -/
theorem c2_witness :
    (colNames c2table).Nodup ∧
    (dropColumns c2table (columnsToDrop c2table 70) =
      c2table.filter (fun c => percentMissing c2table c ≤ 70) ∧
    ∀ c ∈ dropColumns c2table (columnsToDrop c2table 70),
      percentMissing c2table c ≤ 70) :=
  ⟨by with_unfolding_all decide,
   c2_pruner_drops_by_rounded_percent c2table 70 (by with_unfolding_all decide)⟩

/-! ## Claim C3 -/

/-- A source table whose first (identifier) column is entirely null,
exercising the weakness of the final check. -/
def c3table : Table :=
  [⟨"A", [none, none]⟩,
   ⟨"B", [some 1, some 1]⟩,
   ⟨"C", [some 0, some 0]⟩,
   ⟨"D", [some 0, some 1]⟩,
   ⟨"Salinity", [some 33, some 34]⟩,
   ⟨"F", [some 2, some 7]⟩]

/-- C3 counterexample: a run that returns normally (so the final assertion
passed) while exactly one output column consists only of missing markers —
the assertion does not fail when some output column is entirely null. -/
theorem c3_counterexample :
    (preprocess_data c3table {drop_threshold := 100}).isOk = true ∧
    allNullColsE (preprocess_data c3table {drop_threshold := 100}) = 1 := by
  refine ⟨by with_unfolding_all decide, by with_unfolding_all decide⟩

/-- C3 (amended): the final check `assert not all(prepared_df.isna().sum())`
passes iff some column of the reassembled table has zero missing cells —
equivalently it fails iff every column contains at least one missing marker.
It does not detect an entirely-null column as long as any other column is
complete. -/
theorem c3_assert_passes_iff_some_column_complete (t : TableR) :
    (assertNoMissing t = true ↔ ∃ c ∈ t, noneCount c = 0) ∧
    (assertNoMissing t = false ↔ ∀ c ∈ t, 0 < noneCount c) := by
  constructor
  · unfold assertNoMissing
    rw [Bool.not_eq_true']
    rw [List.all_eq_false]
    constructor
    · rintro ⟨c, hc, hnc⟩
      refine ⟨c, hc, ?_⟩
      simpa using hnc
    · rintro ⟨c, hc, hnc⟩
      refine ⟨c, hc, ?_⟩
      simpa using hnc
  · unfold assertNoMissing
    rw [Bool.not_eq_false']
    rw [List.all_eq_true]
    constructor
    · intro h c hc
      have := h c hc
      simp only [decide_eq_true_eq] at this
      omega
    · intro h c hc
      have := h c hc
      simp only [decide_eq_true_eq]
      omega

/-! ## Claim C4 -/

theorem map_fst_uniques (nd : Table) :
    (uniques nd).map Prod.fst = colNames nd := by
  simp [uniques, colNames, List.map_map, Function.comp]

theorem mem_num_attributes {nd : Table} {n : String} :
    n ∈ num_attributes nd ↔ ∃ c ∈ nd, c.name = n ∧ 6 < nunique c := by
  simp only [num_attributes, uniques, List.mem_map, List.mem_filter,
    decide_eq_true_eq]
  constructor
  · rintro ⟨⟨nm, k⟩, ⟨⟨c, hc, hgc⟩, hk⟩, hfst⟩
    cases hgc
    exact ⟨c, hc, hfst, hk⟩
  · rintro ⟨c, hc, hn, hk⟩
    exact ⟨(c.name, nunique c), ⟨⟨c, hc, rfl⟩, hk⟩, hn⟩

theorem mem_cat_attributes {nd : Table} {n : String} :
    n ∈ cat_attributes nd ↔ ∃ c ∈ nd, c.name = n ∧ nunique c ≤ 6 := by
  simp only [cat_attributes, uniques, List.mem_map, List.mem_filter,
    decide_eq_true_eq]
  constructor
  · rintro ⟨⟨nm, k⟩, ⟨⟨c, hc, hgc⟩, hk⟩, hfst⟩
    cases hgc
    exact ⟨c, hc, hfst, hk⟩
  · rintro ⟨c, hc, hn, hk⟩
    exact ⟨(c.name, nunique c), ⟨⟨c, hc, rfl⟩, hk⟩, hn⟩

theorem num_attributes_sublist (nd : Table) :
    (num_attributes nd).Sublist (colNames nd) := by
  unfold num_attributes
  rw [← map_fst_uniques nd]
  exact (List.filter_sublist _).map _

theorem cat_attributes_sublist (nd : Table) :
    (cat_attributes nd).Sublist (colNames nd) := by
  unfold cat_attributes
  rw [← map_fst_uniques nd]
  exact (List.filter_sublist _).map _

/-- With distinct names, a column of the table is not on the drop list iff
its rounded missing percentage is within the threshold. -/
theorem not_dropped_iff {b : Table} {thr : ℚ} {c : Col ℚ}
    (hnd : (colNames b).Nodup) (hc : c ∈ b) :
    (c.name ∉ columnsToDrop b thr) ↔ percentMissing b c ≤ thr := by
  rw [mem_columnsToDrop]
  constructor
  · intro hnot
    by_contra hgt
    exact hnot ⟨c, hc, rfl, lt_of_not_le hgt⟩
  · rintro hle ⟨c', hc', hn, hlt⟩
    have : c' = c := eq_of_name_eq hnd hc' hc hn
    subst this
    exact absurd hle (not_le.mpr hlt)

/-- C4: after a successful prune, the Attribute Classifier partitions the
surviving feature columns (everything past the four identifiers): the two
name lists are disjoint, together they cover exactly the surviving feature
columns, a column is numerical iff its distinct non-null value count exceeds
6 (categorical iff at most 6), each list is in source-schema order, and the
classifier's input is exactly the non-identifier columns that survived the
percentage rule. -/
theorem c4_classifier_partition (b : Table) (thr : ℚ) (data' : Table)
    (hnd : (colNames b).Nodup) (h4 : ∀ c ∈ b.take 4, noneCount c = 0)
    (hok : prunedData b thr = .ok data') :
    (∀ n, ¬(n ∈ num_attributes (data'.drop 4) ∧
        n ∈ cat_attributes (data'.drop 4))) ∧
    (∀ n, (n ∈ num_attributes (data'.drop 4) ∨
        n ∈ cat_attributes (data'.drop 4)) ↔ n ∈ colNames (data'.drop 4)) ∧
    (∀ c ∈ data'.drop 4,
        (c.name ∈ num_attributes (data'.drop 4) ↔ 6 < nunique c) ∧
        (c.name ∈ cat_attributes (data'.drop 4) ↔ nunique c ≤ 6)) ∧
    (num_attributes (data'.drop 4)).Sublist (colNames b) ∧
    (cat_attributes (data'.drop 4)).Sublist (colNames b) ∧
    colNames (data'.drop 4) =
      colNames ((b.drop 4).filter (fun c => percentMissing b c ≤ thr)) := by
  have hthr := prunedData_thr_nonneg hok
  unfold prunedData at hok
  rcases dropnaSalinity_ok hok with ⟨s, hfind, hdata'⟩
  have hdrop4 : data'.drop 4 =
      ((b.drop 4).filter (fun c => c.name ∉ columnsToDrop b thr)).map
        (fun c => ⟨c.name, filterByMask s.cells c.cells⟩) := by
    rw [hdata', ← List.map_drop, dropColumns_drop4 hnd h4 hthr]
  have hfe : (b.drop 4).filter (fun c => c.name ∉ columnsToDrop b thr) =
      (b.drop 4).filter (fun c => percentMissing b c ≤ thr) := by
    apply List.filter_congr
    intro c hc
    have hcb : c ∈ b := List.drop_subset 4 b hc
    simp only [decide_eq_decide]
    exact not_dropped_iff hnd hcb
  have hcoln : colNames (data'.drop 4) =
      colNames ((b.drop 4).filter (fun c => percentMissing b c ≤ thr)) := by
    rw [hdrop4, hfe]
    simp [colNames, List.map_map, Function.comp]
  have hsubb : (colNames (data'.drop 4)).Sublist (colNames b) := by
    rw [hcoln]
    have h1 : (colNames ((b.drop 4).filter
        (fun c => percentMissing b c ≤ thr))).Sublist (colNames (b.drop 4)) :=
      (List.filter_sublist _).map _
    have h2 : colNames (b.drop 4) = (colNames b).drop 4 :=
      List.map_drop _ _ _
    refine h1.trans ?_
    rw [h2]
    exact List.drop_sublist _ _
  have hndnd : (colNames (data'.drop 4)).Nodup := List.Nodup.sublist hsubb hnd
  refine ⟨?_, ?_, ?_, ?_, ?_, hcoln⟩
  · rintro n ⟨hn, hc⟩
    rcases mem_num_attributes.mp hn with ⟨c, hcmem, hcn, hck⟩
    rcases mem_cat_attributes.mp hc with ⟨c', hcmem', hcn', hck'⟩
    have : c' = c := eq_of_name_eq hndnd hcmem' hcmem (by rw [hcn, hcn'])
    subst this
    omega
  · intro n
    constructor
    · rintro (hn | hn)
      · rcases mem_num_attributes.mp hn with ⟨c, hcmem, hcn, _⟩
        exact List.mem_map.mpr ⟨c, hcmem, hcn⟩
      · rcases mem_cat_attributes.mp hn with ⟨c, hcmem, hcn, _⟩
        exact List.mem_map.mpr ⟨c, hcmem, hcn⟩
    · intro hn
      rcases List.mem_map.mp hn with ⟨c, hcmem, hcn⟩
      rcases le_or_lt (nunique c) 6 with hk | hk
      · exact Or.inr (mem_cat_attributes.mpr ⟨c, hcmem, hcn, hk⟩)
      · exact Or.inl (mem_num_attributes.mpr ⟨c, hcmem, hcn, hk⟩)
  · intro c hc
    constructor
    · constructor
      · intro hn
        rcases mem_num_attributes.mp hn with ⟨c', hcmem', hcn', hck'⟩
        have : c' = c := eq_of_name_eq hndnd hcmem' hc hcn'
        subst this
        exact hck'
      · intro hk
        exact mem_num_attributes.mpr ⟨c, hc, rfl, hk⟩
    · constructor
      · intro hn
        rcases mem_cat_attributes.mp hn with ⟨c', hcmem', hcn', hck'⟩
        have : c' = c := eq_of_name_eq hndnd hcmem' hc hcn'
        subst this
        exact hck'
      · intro hk
        exact mem_cat_attributes.mpr ⟨c, hc, rfl, hk⟩
  · exact (num_attributes_sublist _).trans hsubb
  · exact (cat_attributes_sublist _).trans hsubb

/-- A concrete table for exercising the classifier: two continuous columns
(7 distinct values each) and one categorical column (2 distinct values). -/
def c4table : Table :=
  [⟨"Cast Count", [some 1, some 2, some 3, some 4, some 5, some 6, some 7]⟩,
   ⟨"Bottle Count", [some 1, some 1, some 1, some 2, some 2, some 2, some 3]⟩,
   ⟨"Station ID", [some 0, some 0, some 0, some 0, some 0, some 0, some 0]⟩,
   ⟨"Depth ID", [some 0, some 1, some 2, some 3, some 4, some 5, some 6]⟩,
   ⟨"Salinity", [some 31, some 32, some 33, some 34, some 35, some 36, some 37]⟩,
   ⟨"Temperature", [some 10, some 20, some 30, some 40, some 50, some 60, some 70]⟩,
   ⟨"Temperature Quality", [some 1, some 1, some 1, some 2, some 2, some 2, some 1]⟩]

/-- C4 witness: the classifier at a concrete pruned table, with the two
resulting lists evaluated. -/
theorem c4_witness :
    ((colNames c4table).Nodup ∧ (∀ c ∈ c4table.take 4, noneCount c = 0) ∧
      prunedData c4table 70 = .ok c4table) ∧
    num_attributes (c4table.drop 4) = ["Salinity", "Temperature"] ∧
    cat_attributes (c4table.drop 4) = ["Temperature Quality"] ∧
    (∀ n, ¬(n ∈ num_attributes (c4table.drop 4) ∧
        n ∈ cat_attributes (c4table.drop 4))) :=
  ⟨⟨by with_unfolding_all decide, by with_unfolding_all decide,
     by with_unfolding_all rfl⟩,
   by with_unfolding_all decide, by with_unfolding_all decide,
   (c4_classifier_partition c4table 70 c4table (by with_unfolding_all decide)
     (by with_unfolding_all decide) (by with_unfolding_all rfl)).1⟩

/-! ## Claims C5 and C6 -/

/-- A source table whose only feature column is a `Salinity` column with one
of its two cells missing (missing percentage 50). -/
def c5table : Table :=
  [⟨"Cast Count", [some 1, some 2]⟩,
   ⟨"Bottle Count", [some 1, some 1]⟩,
   ⟨"Station ID", [some 0, some 0]⟩,
   ⟨"Depth ID", [some 0, some 1]⟩,
   ⟨"Salinity", [some 33, none]⟩]

/-- C5 counterexample: with `drop_threshold = 30`, `Salinity`'s missing
percentage (50) strictly exceeds the threshold, yet the call neither retains
`Salinity` nor fails with a configuration error — it fails with the
`KeyError` raised at `dropna(subset=["Salinity"])` after the pruner dropped
the target column. -/
theorem c5_counterexample :
    (30 : ℚ) < percentMissing c5table ⟨"Salinity", [some 33, none]⟩ ∧
    ¬((∃ t, preprocess_data c5table {drop_threshold := 30} = .ok t ∧
        "Salinity" ∈ colNames t) ∨
      (∃ e, preprocess_data c5table {drop_threshold := 30} = .error e ∧
        isConfigError e = true)) := by
  have hres : preprocess_data c5table {drop_threshold := 30} =
      .error (.keyError "Salinity") := by with_unfolding_all rfl
  refine ⟨by with_unfolding_all decide, ?_⟩
  rintro (⟨t, ht, _⟩ | ⟨e, he, hce⟩)
  · rw [hres] at ht
    cases ht
  · rw [hres] at he
    cases he
    simp [isConfigError] at hce

/-- C5 (amended): whenever every column named `Salinity` has rounded missing
percentage strictly above `drop_threshold`, the pruner does drop `Salinity`
by the missingness rule, and the call then fails with the `KeyError` from
`dropna(subset=["Salinity"])` — the target is not retained and no
configuration error is raised. -/
theorem c5_salinity_dropped_key_error (b : Table) (p : Params)
    (hmem : "Salinity" ∈ colNames b)
    (hph : ∀ c ∈ b, c.name = "Salinity" →
      p.drop_threshold < percentMissing b c) :
    "Salinity" ∈ columnsToDrop b p.drop_threshold ∧
    preprocess_data b p = .error (.keyError "Salinity") := by
  have hdrop : "Salinity" ∈ columnsToDrop b p.drop_threshold := by
    rcases List.mem_map.mp hmem with ⟨c, hc, hcn⟩
    exact mem_columnsToDrop.mpr ⟨c, hc, hcn, hph c hc hcn⟩
  refine ⟨hdrop, ?_⟩
  have hfind : (dropColumns b (columnsToDrop b p.drop_threshold)).find?
      (fun c => c.name = "Salinity") = none := by
    rw [List.find?_eq_none]
    intro s hs
    simp only [decide_eq_true_eq]
    intro hname
    unfold dropColumns at hs
    have hpred := (List.mem_filter.mp hs).2
    simp only [decide_eq_true_eq] at hpred
    rw [hname] at hpred
    exact hpred hdrop
  have hpruned : prunedData b p.drop_threshold =
      .error (.keyError "Salinity") := by
    unfold prunedData dropnaSalinity
    rw [hfind]
  unfold preprocess_data
  rw [hpruned]

/-- C5 witness: the amended behaviour at a concrete table and threshold. -/
theorem c5_witness :
    ("Salinity" ∈ colNames c5table ∧
      (∀ c ∈ c5table, c.name = "Salinity" →
        (30 : ℚ) < percentMissing c5table c)) ∧
    ("Salinity" ∈ columnsToDrop c5table (30 : ℚ) ∧
      preprocess_data c5table {drop_threshold := 30} =
        .error (.keyError "Salinity")) :=
  ⟨⟨by with_unfolding_all decide, by with_unfolding_all decide⟩,
   c5_salinity_dropped_key_error c5table {drop_threshold := 30}
     (by with_unfolding_all decide) (by with_unfolding_all decide)⟩

/-- C6: contrary to the spec, a threshold low enough to drop every feature
column does not give a run that returns the identifier columns — dropping
all feature columns necessarily drops `Salinity`, and the call then fails
with the `KeyError` from `dropna(subset=["Salinity"])`.  At threshold 10 on
`c5table`, the drop list is exactly the (only) feature column `Salinity`,
the surviving feature set would be empty, and the call errors instead of
returning the four identifier columns. -/
theorem c6_all_features_dropped_key_error :
    columnsToDrop c5table (10 : ℚ) = ["Salinity"] ∧
    colNames (c5table.drop 4) = ["Salinity"] ∧
    preprocess_data c5table {drop_threshold := 10} =
      .error (.keyError "Salinity") := by
  refine ⟨by with_unfolding_all decide, by with_unfolding_all decide,
    by with_unfolding_all rfl⟩

/-! ## Claim C7 -/

/-- C7: with `num_strategy = "constant"`, the numerical imputer replaces
every null of a continuous column by exactly `fill_value` (observed values
are kept), the filled column has no nulls, and the pipeline applies the
scaler to that filled column — so `fill_value` participates in the
statistics (mean/variance or min/max) the scaler fits on the column. -/
theorem c7_constant_fill_before_scaling (p : Params) (c : Col ℚ)
    (h : p.num_strategy = "constant") :
    imputeNumCol p.num_strategy p.fill_value c =
      .ok ⟨c.name, fillWith p.fill_value c.cells⟩ ∧
    (∀ i, c.cells.get? i = some none →
      (fillWith p.fill_value c.cells).get? i = some (some p.fill_value)) ∧
    (∀ i x, c.cells.get? i = some (some x) →
      (fillWith p.fill_value c.cells).get? i = some (some x)) ∧
    (∀ x ∈ fillWith p.fill_value c.cells, x.isSome = true) ∧
    pipelineNum p.num_strategy p.fill_value p.scaling c =
      .ok (scaleCol p.scaling ⟨c.name, fillWith p.fill_value c.cells⟩) := by
  rw [h]
  refine ⟨rfl, ?_, ?_, ?_, ?_⟩
  · intro i hi
    unfold fillWith
    rw [List.get?_map, hi]
    rfl
  · intro i x hi
    unfold fillWith
    rw [List.get?_map, hi]
    rfl
  · intro x hx
    unfold fillWith at hx
    rcases List.mem_map.mp hx with ⟨a, _, rfl⟩
    rfl
  · unfold pipelineNum
    rw [show imputeNumCol "constant" p.fill_value c =
      .ok ⟨c.name, fillWith p.fill_value c.cells⟩ from rfl]
    rfl

/-- A concrete continuous column with a missing cell. -/
def c7col : Col ℚ := ⟨"O2 Sat", [some 1, none, some 3]⟩

/-- Parameters selecting constant imputation with the default fill value. -/
def c7params : Params := {num_strategy := "constant", fill_value := -999}

/-- C7 witness: on a concrete column, the constant imputer fills the null
with exactly -999. -/
theorem c7_witness :
    c7params.num_strategy = "constant" ∧
    imputeNumCol c7params.num_strategy c7params.fill_value c7col =
      .ok ⟨"O2 Sat", [some 1, some (-999), some 3]⟩ :=
  ⟨rfl, by
    have h := (c7_constant_fill_before_scaling c7params c7col rfl).1
    rw [h]
    with_unfolding_all rfl⟩

/-! ## Claims C8, C9 and C10 -/

/-- C8: the transform is a deterministic, idempotent batch transform: a
second call with the same parameters, run from the global state left by the
first call, returns the identical global state, file effects and output
table. -/
theorem c8_idempotent (b : Table) (p : Params) :
    runPreprocess (runPreprocess b p).1 p = runPreprocess b p := rfl

/-- C9: no call mutates the shared source table: the global `bottle_df`
after any call (successful or failed) equals the table before the call,
because the call works on the private copy taken at entry (line 106). -/
theorem c9_source_table_unchanged (b : Table) (p : Params) :
    (runPreprocess b p).1 = b := rfl

/-- C10: the `file_name` parameter has no effect: no file is ever written
(the `to_csv` call is commented out), and two calls differing only in
`file_name` return identical global state and output tables. -/
theorem c10_file_name_irrelevant (b : Table) (d : ℚ) (ns cs : String)
    (fv : ℚ) (sc f₁ f₂ : String) :
    (runPreprocess b ⟨d, ns, cs, fv, sc, f₁⟩).2.1 = [] ∧
    runPreprocess b ⟨d, ns, cs, fv, sc, f₁⟩ =
      runPreprocess b ⟨d, ns, cs, fv, sc, f₂⟩ :=
  ⟨rfl, rfl⟩

end WaterSalinity
